import Mathlib

/-
Verification of the chat-relay backend (Express + Gemini/Ollama tool-calling
orchestrator + user CRUD API).

Shallow embedding conventions:
* JavaScript values flowing through `JSON.parse` / tool arguments are modelled
  by the inductive `Json` below.  JSON numbers are kept as their source lexeme
  (a string) -- no floating point arithmetic is ever performed on them in the
  modelled code paths.
* Fallible JavaScript code (`throw` / rejected promises) is modelled with
  `Except String` / `Option`.
* External collaborators (the Gemini/Ollama providers, the weather/user
  microservice) are modelled as explicit environments (`ToolEnv`, `ChatEnv`):
  the orchestrator's behaviour is a pure function of their replies.
* The newline-delimited JSON frames written with `res.write` are modelled as a
  `List Frame` in emission order.
-/

/-! ### JavaScript character classes

`isJsSpace` is the character set matched by the JavaScript regex class `\s`
(ECMAScript WhiteSpace plus LineTerminator); the same set is removed by
`String.prototype.trim`.  `isLineTerm` is the set *not* matched by `.` in a
regex without the `s` flag.  `isJsWord` is `\w`. -/

def isJsSpace (c : Char) : Bool :=
  c.toNat == 9 || c.toNat == 10 || c.toNat == 11 || c.toNat == 12 ||
  c.toNat == 13 || c.toNat == 32 || c.toNat == 160 || c.toNat == 0x1680 ||
  (0x2000 ≤ c.toNat && c.toNat ≤ 0x200A) || c.toNat == 0x2028 ||
  c.toNat == 0x2029 || c.toNat == 0x202F || c.toNat == 0x205F ||
  c.toNat == 0x3000 || c.toNat == 0xFEFF

def isLineTerm (c : Char) : Bool :=
  c.toNat == 10 || c.toNat == 13 || c.toNat == 0x2028 || c.toNat == 0x2029

def isJsWord (c : Char) : Bool :=
  ('a' ≤ c && c ≤ 'z') || ('A' ≤ c && c ≤ 'Z') || ('0' ≤ c && c ≤ '9') || c == '_'

/-- A string is "blank" when `s.trim()` would be falsy in JavaScript, i.e. the
string consists solely of whitespace (or is empty). -/
def jsBlank (s : String) : Bool := s.data.all isJsSpace

/-! ### JSON values

`num` stores the numeric literal's lexeme; the modelled code never computes
with JSON numbers, it only forwards them. -/

inductive Json where
  | str (s : String)
  | num (lexeme : String)
  | bool (b : Bool)
  | null
  | arr (elements : List Json)
  | obj (fields : List (String × Json))

/-- Whitespace accepted by `JSON.parse` between tokens (space, tab, LF, CR). -/
def isJsonWs (c : Char) : Bool :=
  c == ' ' || c == '\t' || c == '\n' || c == '\r'

def hexVal (c : Char) : Option Nat :=
  if '0' ≤ c ∧ c ≤ '9' then some (c.toNat - 48)
  else if 'a' ≤ c ∧ c ≤ 'f' then some (c.toNat - 87)
  else if 'A' ≤ c ∧ c ≤ 'F' then some (c.toNat - 55)
  else none

/-- Parse the body of a JSON string literal (the opening quote has already been
consumed); returns the decoded characters and the input remaining after the
closing quote.  Escapes follow the JSON grammar used by `JSON.parse`; an
invalid escape or an unescaped control character fails the parse. -/
def parseStrAux : List Char → Option (List Char × List Char)
  | [] => none
  | '"' :: r => some ([], r)
  | '\\' :: '"' :: r => (parseStrAux r).map (fun p => ('"' :: p.1, p.2))
  | '\\' :: '\\' :: r => (parseStrAux r).map (fun p => ('\\' :: p.1, p.2))
  | '\\' :: '/' :: r => (parseStrAux r).map (fun p => ('/' :: p.1, p.2))
  | '\\' :: 'b' :: r => (parseStrAux r).map (fun p => (Char.ofNat 8 :: p.1, p.2))
  | '\\' :: 'f' :: r => (parseStrAux r).map (fun p => (Char.ofNat 12 :: p.1, p.2))
  | '\\' :: 'n' :: r => (parseStrAux r).map (fun p => ('\n' :: p.1, p.2))
  | '\\' :: 'r' :: r => (parseStrAux r).map (fun p => ('\r' :: p.1, p.2))
  | '\\' :: 't' :: r => (parseStrAux r).map (fun p => ('\t' :: p.1, p.2))
  | '\\' :: 'u' :: h1 :: h2 :: h3 :: h4 :: r =>
    match hexVal h1, hexVal h2, hexVal h3, hexVal h4 with
    | some a, some b, some c, some d =>
      (parseStrAux r).map (fun p => (Char.ofNat (a * 4096 + b * 256 + c * 16 + d) :: p.1, p.2))
    | _, _, _, _ => none
  | '\\' :: _ => none
  | c :: r =>
    if c.toNat < 32 then none
    else (parseStrAux r).map (fun p => (c :: p.1, p.2))

/-- The integer part of a JSON number: `0`, or a nonzero digit followed by
digits (leading zeros are rejected, as in `JSON.parse`). -/
def parseIntPart : List Char → Option (List Char × List Char)
  | [] => none
  | '0' :: r => some (['0'], r)
  | c :: r =>
    if c.isDigit then some (c :: r.takeWhile Char.isDigit, r.dropWhile Char.isDigit)
    else none

/-- Optional fraction part `.digits`. -/
def parseFracPart (l : List Char) : Option (List Char × List Char) :=
  match l with
  | '.' :: r =>
    let ds := r.takeWhile Char.isDigit
    if ds.isEmpty then none else some ('.' :: ds, r.dropWhile Char.isDigit)
  | _ => some ([], l)

/-- Optional exponent part `(e|E)(+|-)?digits`. -/
def parseExpPart (l : List Char) : Option (List Char × List Char) :=
  match l with
  | [] => some ([], [])
  | c :: r =>
    if c = 'e' ∨ c = 'E' then
      let (sgn, r2) : List Char × List Char :=
        match r with
        | s :: r' => if s = '+' ∨ s = '-' then ([s], r') else ([], s :: r')
        | [] => ([], [])
      let ds := r2.takeWhile Char.isDigit
      if ds.isEmpty then none
      else some (c :: (sgn ++ ds), r2.dropWhile Char.isDigit)
    else some ([], c :: r)

/-- A JSON number; the lexeme is stored verbatim. -/
def parseNum (l : List Char) : Option (Json × List Char) := do
  let (sgn, l1) : List Char × List Char :=
    match l with
    | '-' :: r => (['-'], r)
    | _ => ([], l)
  let (ip, l2) ← parseIntPart l1
  let (fp, l3) ← parseFracPart l2
  let (ep, l4) ← parseExpPart l3
  some (Json.num (String.mk (sgn ++ ip ++ fp ++ ep)), l4)

/-! ### The JSON value parser

Fuel-indexed so that the definitions are structurally recursive and evaluate
inside the kernel.  Along any chain of recursive calls at least one input
character is consumed per two units of fuel, so the initial fuel
`2 * length + 2` chosen in `jsonParse` can never be exhausted; the `0`-fuel
branches are unreachable from `jsonParse`. -/

mutual

def parseVal : Nat → List Char → Option (Json × List Char)
  | 0, _ => none
  | fuel + 1, l =>
    match l.dropWhile isJsonWs with
    | '"' :: r =>
      match parseStrAux r with
      | some (cs, rest) => some (Json.str (String.mk cs), rest)
      | none => none
    | '\x7b' :: r =>
      (match r.dropWhile isJsonWs with
       | '\x7d' :: rest => some (Json.obj [], rest)
       | r1 => parseMembers fuel r1 [])
    | '[' :: r =>
      (match r.dropWhile isJsonWs with
       | ']' :: rest => some (Json.arr [], rest)
       | r1 => parseElems fuel r1 [])
    | 't' :: 'r' :: 'u' :: 'e' :: r => some (Json.bool true, r)
    | 'f' :: 'a' :: 'l' :: 's' :: 'e' :: r => some (Json.bool false, r)
    | 'n' :: 'u' :: 'l' :: 'l' :: r => some (Json.null, r)
    | l1 => parseNum l1

def parseMembers : Nat → List Char → List (String × Json) → Option (Json × List Char)
  | 0, _, _ => none
  | fuel + 1, l, acc =>
    match l with
    | '"' :: r =>
      match parseStrAux r with
      | some (kcs, r2) =>
        (match r2.dropWhile isJsonWs with
         | ':' :: r3 =>
           match parseVal fuel r3 with
           | some (v, r4) =>
             (match r4.dropWhile isJsonWs with
              | ',' :: r5 => parseMembers fuel (r5.dropWhile isJsonWs) (acc ++ [(String.mk kcs, v)])
              | '\x7d' :: r5 => some (Json.obj (acc ++ [(String.mk kcs, v)]), r5)
              | _ => none)
           | none => none
         | _ => none)
      | none => none
    | _ => none

def parseElems : Nat → List Char → List Json → Option (Json × List Char)
  | 0, _, _ => none
  | fuel + 1, l, acc =>
    match parseVal fuel l with
    | some (v, r) =>
      (match r.dropWhile isJsonWs with
       | ',' :: r2 => parseElems fuel r2 (acc ++ [v])
       | ']' :: r2 => some (Json.arr (acc ++ [v]), r2)
       | _ => none)
    | none => none

end

/-- `JSON.parse`: the whole input (up to trailing JSON whitespace) must be
a single value, otherwise the parse fails (`SyntaxError` ~> `none`). -/
def jsonParse (s : String) : Option Json :=
  match parseVal (2 * s.length + 2) s.data with
  | some (j, rest) => if rest.dropWhile isJsonWs = [] then some j else none
  | none => none

/-! ### `JSON.stringify` (no indentation), used to build the follow-up prompt -/

def hexDigit (n : Nat) : Char :=
  if n < 10 then Char.ofNat (48 + n) else Char.ofNat (87 + n)

def escChar (c : Char) : List Char :=
  if c = '"' then ['\\', '"']
  else if c = '\\' then ['\\', '\\']
  else if c = '\n' then ['\\', 'n']
  else if c = '\r' then ['\\', 'r']
  else if c = '\t' then ['\\', 't']
  else if c.toNat = 8 then ['\\', 'b']
  else if c.toNat = 12 then ['\\', 'f']
  else if c.toNat < 32 then ['\\', 'u', '0', '0', hexDigit (c.toNat / 16), hexDigit (c.toNat % 16)]
  else [c]

def escCharsAll : List Char → List Char
  | [] => []
  | c :: cs => escChar c ++ escCharsAll cs

def quoteStr (s : String) : String :=
  "\"" ++ String.mk (escCharsAll s.data) ++ "\""

mutual

def jsonStringify : Json → String
  | .str s => quoteStr s
  | .num lexeme => lexeme
  | .bool true => "true"
  | .bool false => "false"
  | .null => "null"
  | .arr xs => "[" ++ stringifyElems xs ++ "]"
  | .obj fs => "\x7b" ++ stringifyFields fs ++ "\x7d"

def stringifyElems : List Json → String
  | [] => ""
  | [x] => jsonStringify x
  | x :: y :: xs => jsonStringify x ++ "," ++ stringifyElems (y :: xs)

def stringifyFields : List (String × Json) → String
  | [] => ""
  | [(k, v)] => quoteStr k ++ ":" ++ jsonStringify v
  | (k, v) :: f :: fs => quoteStr k ++ ":" ++ jsonStringify v ++ "," ++ stringifyFields (f :: fs)

end

/-- JavaScript property lookup `argsObject.key`.  On a non-object value, or a
missing key, the result is `undefined` (`none`).  For duplicate keys
`JSON.parse` keeps the last occurrence, so lookup is last-wins. -/
def lookupLast : List (String × Json) → String → Option Json
  | [], _ => none
  | (k', v) :: fs, k =>
    match lookupLast fs k with
    | some r => some r
    | none => if k' = k then some v else none

def jGet (j : Json) (k : String) : Option Json :=
  match j with
  | .obj fs => lookupLast fs k
  | _ => none

/-! ### Emulated-mode tool-call extraction (`parseToolCalls`, src/unnamed/part_000)

The JavaScript loop repeatedly applies the global regex
`TOOL_CALL:\s*(\w+)\s*\((.*?)\)` with `exec`, resuming after each match, and
for each occurrence attempts `JSON.parse('{' + argsString + '}')`; a parse
failure drops that occurrence (logged, never thrown).

`tryMatchAt` decides whether a match of the pattern starts exactly at the
current position: the literal tag, then `\s*`, a nonempty run of `\w`
(greedy matching is exact here because a word character can satisfy neither
`\s*` nor `\(`, so backtracking the `\w+` always fails), then `\s*`, `(`,
and the lazy `(.*?)\)` — the shortest run of non-LineTerminator characters
up to the first `)`. -/

structure ToolCall where
  name : String
  args : Json

def dropLit : List Char → List Char → Option (List Char)
  | [], l => some l
  | _ :: _, [] => none
  | p :: ps, c :: cs => if c = p then dropLit ps cs else none

/-- The lazy `(.*?)\)` tail: characters up to the first `)`; `.` does not
match a LineTerminator, so hitting one (or the end of input) fails. -/
def scanArgs : List Char → Option (List Char × List Char)
  | [] => none
  | c :: cs =>
    if c = ')' then some ([], cs)
    else if isLineTerm c then none
    else
      match scanArgs cs with
      | some (a, rest) => some (c :: a, rest)
      | none => none

def tryMatchAt (l : List Char) : Option (String × String × List Char) :=
  match dropLit "TOOL_CALL:".data l with
  | none => none
  | some r1 =>
    if ((r1.dropWhile isJsSpace).takeWhile isJsWord).isEmpty then none
    else
      match ((r1.dropWhile isJsSpace).dropWhile isJsWord).dropWhile isJsSpace with
      | '(' :: r5 =>
        match scanArgs r5 with
        | some (args, rest) =>
          some (String.mk ((r1.dropWhile isJsSpace).takeWhile isJsWord), String.mk args, rest)
        | none => none
      | _ => none

/-- The `while ((match = toolCallPattern.exec(content)) !== null)` loop.  When
no match starts at the current position the engine retries from the next
position; after a successful match it resumes after the consumed text
(`lastIndex`).  Fuel-indexed for kernel evaluation: every step consumes at
least one character, so the initial fuel `length + 1` is never exhausted. -/
def scanTCF : Nat → List Char → List ToolCall
  | 0, _ => []
  | _ + 1, [] => []
  | fuel + 1, c :: cs =>
    match tryMatchAt (c :: cs) with
    | some (n, a, rest) =>
      (match jsonParse ("\x7b" ++ a ++ "\x7d") with
       | some j => [ToolCall.mk n j]
       | none => []) ++ scanTCF fuel rest
    | none => scanTCF fuel cs

def parseToolCalls (content : String) : List ToolCall :=
  scanTCF (content.length + 1) content.data

/-- The raw occurrences of the regex pattern (name, argument fragment), before
the `JSON.parse` attempt — the same scan as `scanTCF` without the parse. -/
def scanOccF : Nat → List Char → List (String × String)
  | 0, _ => []
  | _ + 1, [] => []
  | fuel + 1, c :: cs =>
    match tryMatchAt (c :: cs) with
    | some (n, a, rest) => (n, a) :: scanOccF fuel rest
    | none => scanOccF fuel cs

def scanOccurrences (content : String) : List (String × String) :=
  scanOccF (content.length + 1) content.data

/-- What one occurrence contributes: its parsed `ToolCallRequest`, or nothing
when the braced argument fragment is malformed JSON. -/
def toolOfOcc (o : String × String) : Option ToolCall :=
  (jsonParse ("\x7b" ++ o.2 ++ "\x7d")).map (fun j => ToolCall.mk o.1 j)

/-! ### Conversation turns and the two model-client adapters -/

/-- A `ConversationTurn` as submitted by the client: `{type, content}` (the
timestamp plays no role in the modelled code).  `content` is `Option` because
`msg.content?.trim()` must also cover a missing field. -/
structure Turn where
  type : String
  content : Option String
deriving DecidableEq

/-- The `.filter((msg) => msg.content?.trim())` predicate shared by both
adapters: keep a turn exactly when its content exists and is not blank. -/
def keepTurn (t : Turn) : Bool :=
  match t.content with
  | some s => !jsBlank s
  | none => false

/-- One Gemini history entry `{role, parts:[{text}]}`, flattened to its single
text part. -/
structure GMsg where
  role : String
  text : String
deriving DecidableEq

/-- One Ollama chat message `{role, content}`. -/
structure OMsg where
  role : String
  content : String
deriving DecidableEq

/-- `callGeminiWithTools`: format the history (filter blank turns, map
`type === "user"` to role `user`, anything else to `model`). -/
def fmtGeminiHistory (hist : List Turn) : List GMsg :=
  (hist.filter keepTurn).map
    (fun t => ⟨if t.type = "user" then "user" else "model", t.content.getD ""⟩)

/-- `callGeminiWithTools`: `if (history.length === 0 || history[0].role !==
"user") history = [{role:"user", parts:[{text: userMessage}]}]`. -/
def ensureUserFirst (userMessage : String) (h : List GMsg) : List GMsg :=
  match h with
  | [] => [⟨"user", userMessage⟩]
  | m :: _ => if m.role = "user" then h else [⟨"user", userMessage⟩]

/-- The body of the `cleanHistory` loop: entry `i > 0` is kept iff its role
differs from the role of the *original* entry `i - 1` (`history[i].role !==
history[i-1].role`); `prev` is the previous original entry's role. -/
def cleanAux (prev : String) : List GMsg → List GMsg
  | [] => []
  | m :: ms => if m.role = prev then cleanAux m.role ms else m :: cleanAux m.role ms

/-- `cleanHistory`: entry 0 is always kept. -/
def cleanHistory : List GMsg → List GMsg
  | [] => []
  | m :: ms => m :: cleanAux m.role ms

/-- The history that `callGeminiWithTools` hands to
`model.startChat({history: ...})`. -/
def geminiHistory (userMessage : String) (hist : List Turn) : List GMsg :=
  cleanHistory (ensureUserFirst userMessage (fmtGeminiHistory hist))

/-- The message list `callOllama` POSTs to the provider: optional system
prompt, then the filtered history (role `user` / `assistant`), then the
current message as a final `user` turn.  No first-turn fix-up and no
same-role collapsing happen in this adapter. -/
def ollamaMessages (userMessage : String) (hist : List Turn) (systemPrompt : Option String) :
    List OMsg :=
  (match systemPrompt with
   | some s => [⟨"system", s⟩]
   | none => []) ++
  (hist.filter keepTurn).map
    (fun t => ⟨if t.type = "user" then "user" else "assistant", t.content.getD ""⟩) ++
  [⟨"user", userMessage⟩]

/-- The browser client's `conversation_history: messages.slice(-10)`.
For `length ≤ 10`, `slice(-10)` is the whole list, which `drop` with
truncated subtraction also gives. -/
def clientRecentHistory (messages : List Turn) : List Turn :=
  messages.drop (messages.length - 10)

/-! ### Tool registry and executor (`executeTool`)

The three collaborator endpoints are opaque: a `ToolEnv` gives their replies
(`Except.error` = rejected fetch / thrown error).  `executeTool` returns the
collaborator's parsed reply together with the list of outbound calls it
performed, so that "exactly one outbound call / no outbound call" is part of
the model. -/

structure ToolEnv where
  weather : Option Json → Except String Json
  usersByCity : Option Json → Except String Json
  deleteUser : Option Json → Option Json → Except String Json

inductive OutCall where
  | weatherLookup (city : Option Json)
  | usersLookup (city : Option Json)
  | userDelete (email : Option Json) (token : Option Json)

def executeTool (env : ToolEnv) (toolName : String) (args : Json) :
    Except String Json × List OutCall :=
  if toolName = "getWeatherData" then
    (env.weather (jGet args "city"), [.weatherLookup (jGet args "city")])
  else if toolName = "getLoctionWiseUserData" then
    (env.usersByCity (jGet args "city"), [.usersLookup (jGet args "city")])
  else if toolName = "deleteUserlData" then
    (env.deleteUser (jGet args "email") (jGet args "token"),
     [.userDelete (jGet args "email") (jGet args "token")])
  else
    (Except.error ("Unknown tool: " ++ toolName), [])

/-! ### The `/api/chat` orchestrator -/

/-- The adapter's normalized reply: `{functionCalls, text}`
(`functionCalls` is always an array: `response.functionCalls() || []`). -/
structure ModelResp where
  functionCalls : List ToolCall
  text : String

/-- The request handler's environment: the model provider (first round), the
tool collaborators, and the follow-up model round.  `model` receives the
normalized history the adapter built; its `Except.error` carries the raw
provider error message, which `callGeminiWithTools` wraps before rethrowing. -/
structure ChatEnv where
  model : String → List GMsg → Except String ModelResp
  tools : ToolEnv
  followUp : String → Except String String

/-- One streamed NDJSON frame, tagged by `type` with exactly the fields the
handler writes in each `res.write`. -/
inductive Frame where
  | thinking (content : String)
  | fnExecuting (function : String) (args : Json)
  | fnCompleted (function : String) (args : Json) (result : Json)
  | fnError (function : String) (error : String)
  | contentF (content : String)
  | complete
  | errorF (message : String)

/-- The follow-up prompt string built in the handler. -/
def followUpPrompt (name : String) (toolResult : Json) : String :=
  "Based on the " ++ name ++ " result: " ++ jsonStringify toolResult ++
    ", provide a helpful response to the user."

/-- The frames written for one queued tool call: the `executing` frame, then
on success the `completed` frame followed by the follow-up `content` frame;
any error thrown inside the per-call `try` (tool failure, or a failing
follow-up model call) is caught locally and written as a `function_call`
error frame plus a human-readable `content` frame. -/
def perCallFrames (env : ChatEnv) (fc : ToolCall) : List Frame :=
  Frame.fnExecuting fc.name fc.args ::
  (match (executeTool env.tools fc.name fc.args).fst with
   | .error msg =>
     [Frame.fnError fc.name msg,
      Frame.contentF ("Error during " ++ fc.name ++ ": " ++ msg)]
   | .ok r =>
     Frame.fnCompleted fc.name fc.args r ::
     (match env.followUp (followUpPrompt fc.name r) with
      | .ok t => [Frame.contentF t]
      | .error msg =>
        [Frame.fnError fc.name msg,
         Frame.contentF ("Error during " ++ fc.name ++ ": " ++ msg)]))

/-- The `for (const functionCall of ...functionCalls)` loop, strictly in the
order the model returned the calls. -/
def toolLoopFrames (env : ChatEnv) : List ToolCall → List Frame
  | [] => []
  | fc :: rest => perCallFrames env fc ++ toolLoopFrames env rest

/-- The full frame sequence written by `app.post("/api/chat")`: the
`thinking` frame, then — if the adapter round succeeds — either the tool loop
(when `functionCalls?.length > 0`) or a single `content` frame with the
direct text, then `complete`; if the adapter round throws, the outer catch
writes a single `error` frame with the wrapped provider message.  `res.end()`
immediately follows the final frame in every path. -/
def chatFrames (env : ChatEnv) (message : String) (hist : List Turn) : List Frame :=
  Frame.thinking "Processing..." ::
  (match env.model message (geminiHistory message hist) with
   | .error m => [Frame.errorF ("Gemini API Error: " ++ m)]
   | .ok resp =>
     (if 0 < resp.functionCalls.length then toolLoopFrames env resp.functionCalls
      else [Frame.contentF resp.text]) ++ [Frame.complete])

/-- A frame after which the handler closes the stream. -/
def isTerminal : Frame → Bool
  | .complete => true
  | .errorF _ => true
  | _ => false

/-! ### The user-store route `GET /deleteUser` (src/api.js) -/

/-- `String.prototypjsToLower eCase()` (character-wise lowercasing; the
modelled emails are ASCII). -/
def jsToLower (s : String) : String := String.mk (s.data.map Char.toLower)

/-- A document of the `users` collection (all schema fields are optional). -/
structure UserRec where
  name : Option String
  gender : Option String
  email : Option String
  phone : Option String
  location : Option String
deriving DecidableEq

inductive DeleteResp where
  /-- the JSON-serialized `deleteOne` result (`deletedCount` 0 or 1) -/
  | deleted (deletedCount : Nat)
  /-- `{message: "error"}` -/
  | errorMsg
  /-- `req.query.email.toLowerCase()` threw (`email` missing with a valid
  token); no response is produced -/
  | crash
deriving DecidableEq

/-- The `/deleteUser` handler: a shared-secret equality check on
`req.query.token`, then `deleteOne({email: req.query.email.toLowerCase()})` —
`deleteOne` removes the first matching document.  Returns the store after the
request together with the response. -/
def deleteUserRoute (store : List UserRec) (email token : Option String) :
    List UserRec × DeleteResp :=
  if token = some "1" then
    match email with
    | some e =>
      (store.eraseP (fun r => r.email == some (jsToLower e)),
       DeleteResp.deleted (if store.any (fun r => r.email == some (jsToLower e)) then 1 else 0))
    | none => (store, DeleteResp.crash)
  else (store, DeleteResp.errorMsg)

/-! ### Supporting lemmas: the emulated-mode scanner -/

theorem dropLit_length : ∀ (p l r : List Char), dropLit p l = some r → r.length + p.length = l.length := by
  intro p
  induction p with
  | nil =>
    intro l r h
    simp only [dropLit, Option.some.injEq] at h
    subst h; simp
  | cons x xs ih =>
    intro l r h
    cases l with
    | nil => simp [dropLit] at h
    | cons c cs =>
      by_cases hc : c = x
      · simp only [dropLit, if_pos hc] at h
        have := ih cs r h
        simp only [List.length_cons]
        omega
      · simp [dropLit, hc] at h

theorem dropWhile_length_le (p : Char → Bool) : ∀ l : List Char, (l.dropWhile p).length ≤ l.length := by
  intro l
  induction l with
  | nil => simp
  | cons c cs ih =>
    cases h : p c
    · simp [List.dropWhile_cons, h]
    · simp only [List.dropWhile_cons, h, if_true, List.length_cons]
      omega

theorem scanArgs_length : ∀ (l a rest : List Char), scanArgs l = some (a, rest) → rest.length < l.length := by
  intro l
  induction l with
  | nil => intro a rest h; simp [scanArgs] at h
  | cons c cs ih =>
    intro a rest h
    by_cases h1 : c = ')'
    · simp only [scanArgs, if_pos h1, Option.some.injEq, Prod.mk.injEq] at h
      obtain ⟨-, hr⟩ := h
      subst hr; simp
    · by_cases h2 : isLineTerm c
      · simp [scanArgs, h1, h2] at h
      · simp only [scanArgs, if_neg h1, h2, Bool.false_eq_true, if_false] at h
        cases hs : scanArgs cs with
        | none => rw [hs] at h; exact absurd h (by simp)
        | some p =>
          obtain ⟨a', rest'⟩ := p
          rw [hs] at h
          simp only [Option.some.injEq, Prod.mk.injEq] at h
          obtain ⟨-, hr⟩ := h
          subst hr
          have := ih a' rest' hs
          simp only [List.length_cons]
          omega

theorem tryMatchAt_rest_lt {l : List Char} {n a : String} {rest : List Char}
    (h : tryMatchAt l = some (n, a, rest)) : rest.length < l.length := by
  unfold tryMatchAt at h
  cases hd : dropLit "TOOL_CALL:".data l with
  | none => rw [hd] at h; exact absurd h (by simp)
  | some r1 =>
    rw [hd] at h
    dsimp only at h
    have hr1 : r1.length < l.length := by
      have h10 := dropLit_length ("TOOL_CALL:".data) l r1 hd
      have hTen : ("TOOL_CALL:".data).length = 10 := rfl
      omega
    by_cases hne : ((r1.dropWhile isJsSpace).takeWhile isJsWord).isEmpty
    · rw [if_pos hne] at h; exact absurd h (by simp)
    · rw [if_neg hne] at h
      split at h
      · rename_i r5 hm
        split at h
        · rename_i args rest' hs
          simp only [Option.some.injEq, Prod.mk.injEq] at h
          obtain ⟨-, -, hr⟩ := h
          subst hr
          have h1 := scanArgs_length r5 args rest' hs
          have h2 : (((r1.dropWhile isJsSpace).dropWhile isJsWord).dropWhile isJsSpace).length = r5.length + 1 := by
            rw [hm]; rfl
          have h3 := dropWhile_length_le isJsSpace ((r1.dropWhile isJsSpace).dropWhile isJsWord)
          have h4 := dropWhile_length_le isJsWord (r1.dropWhile isJsSpace)
          have h5 := dropWhile_length_le isJsSpace r1
          omega
        · exact absurd h (by simp)
      · exact absurd h (by simp)

/-- The fuel threaded through `scanTCF` is irrelevant as soon as it exceeds
the input length — so the canonical fuel `length + 1` used by
`parseToolCalls` is never exhausted and the fueled scan is faithful to the
unbounded JavaScript loop. -/
theorem scanTCF_fuel_irrel : ∀ (n m : Nat) (l : List Char),
    l.length < n → l.length < m → scanTCF n l = scanTCF m l := by
  intro n
  induction n with
  | zero => intro m l hn hm; omega
  | succ n' ih =>
    intro m l hn hm
    cases m with
    | zero => omega
    | succ m' =>
      cases l with
      | nil => rfl
      | cons c cs =>
        simp only [List.length_cons] at hn hm
        cases h : tryMatchAt (c :: cs) with
        | none =>
          simp only [scanTCF, h]
          exact ih m' cs (by omega) (by omega)
        | some v =>
          obtain ⟨nm, a, rest⟩ := v
          have hlt := tryMatchAt_rest_lt h
          simp only [List.length_cons] at hlt
          simp only [scanTCF, h]
          rw [ih m' rest (by omega) (by omega)]

/-- The scan-with-parse loop is the raw occurrence scan filtered through the
per-occurrence `JSON.parse` attempt: a malformed argument fragment contributes
nothing, and cannot affect any other occurrence. -/
theorem scanTCF_eq_occ : ∀ (fuel : Nat) (l : List Char),
    scanTCF fuel l = (scanOccF fuel l).filterMap toolOfOcc := by
  intro fuel
  induction fuel with
  | zero => intro l; rfl
  | succ n ih =>
    intro l
    cases l with
    | nil => rfl
    | cons c cs =>
      cases h : tryMatchAt (c :: cs) with
      | none => simp [scanTCF, scanOccF, h, ih]
      | some v =>
        obtain ⟨nm, a, rest⟩ := v
        simp only [scanTCF, scanOccF, h, List.filterMap_cons]
        cases hj : jsonParse ("\x7b" ++ a ++ "\x7d") with
        | none => simp [toolOfOcc, hj, ih]
        | some j => simp [toolOfOcc, hj, ih]

/-- C3: the emulated-mode parser extracts exactly one ToolCallRequest
`getWeatherData({city:"Paris"})` from the example text; in general the
extracted calls are exactly the pattern occurrences whose braced argument
fragment parses as JSON, so an occurrence with a malformed fragment (e.g. the
unbalanced-brace example) yields zero calls for that occurrence while the
parser — a total function — returns normally. -/
theorem parseToolCalls_spec :
    parseToolCalls "TOOL_CALL: getWeatherData(\"city\": \"Paris\")" =
      [ToolCall.mk "getWeatherData" (Json.obj [("city", Json.str "Paris")])] ∧
    (∀ content : String,
      parseToolCalls content = (scanOccurrences content).filterMap toolOfOcc) ∧
    parseToolCalls "TOOL_CALL: getWeatherData(\"city\": \x7b\"x\": 1)" = [] :=
  ⟨rfl, fun content => scanTCF_eq_occ (content.length + 1) content.data, rfl⟩

/-! ### Supporting lemmas: history normalization -/

theorem cleanAux_spec : ∀ (l : List GMsg) (prev : String),
    List.Chain' (fun x y : GMsg => x.role ≠ y.role) (cleanAux prev l) ∧
    ∀ m ∈ (cleanAux prev l).head?, m.role ≠ prev := by
  intro l
  induction l with
  | nil => intro prev; exact ⟨List.chain'_nil, by simp [cleanAux]⟩
  | cons m ms ih =>
    intro prev
    by_cases h : m.role = prev
    · simp only [cleanAux, if_pos h]
      rw [← h]
      exact ih m.role
    · simp only [cleanAux, if_neg h]
      constructor
      · rw [List.chain'_cons']
        exact ⟨fun y hy => Ne.symm ((ih m.role).2 y hy), (ih m.role).1⟩
      · intro m' hm'
        simp only [List.head?_cons, Option.mem_def, Option.some.injEq] at hm'
        subst hm'
        exact h

theorem mem_cleanAux : ∀ (l : List GMsg) (prev : String) (x : GMsg), x ∈ cleanAux prev l → x ∈ l := by
  intro l
  induction l with
  | nil => intro prev x h; simp [cleanAux] at h
  | cons m ms ih =>
    intro prev x h
    by_cases hr : m.role = prev
    · simp only [cleanAux, if_pos hr] at h
      exact List.mem_cons_of_mem m (ih m.role x h)
    · simp only [cleanAux, if_neg hr, List.mem_cons] at h
      rcases h with h | h
      · exact h ▸ List.mem_cons_self m ms
      · exact List.mem_cons_of_mem m (ih m.role x h)

theorem cleanAux_length : ∀ (l : List GMsg) (prev : String), (cleanAux prev l).length ≤ l.length := by
  intro l
  induction l with
  | nil => intro prev; simp [cleanAux]
  | cons m ms ih =>
    intro prev
    by_cases hr : m.role = prev
    · simp only [cleanAux, if_pos hr]
      exact le_trans (ih m.role) (by simp)
    · simp only [cleanAux, if_neg hr, List.length_cons]
      exact Nat.succ_le_succ (ih m.role)

theorem mem_cleanHistory {x : GMsg} {l : List GMsg} (h : x ∈ cleanHistory l) : x ∈ l := by
  cases l with
  | nil => simp [cleanHistory] at h
  | cons m ms =>
    simp only [cleanHistory, List.mem_cons] at h
    rcases h with h | h
    · exact h ▸ List.mem_cons_self m ms
    · exact List.mem_cons_of_mem m (mem_cleanAux ms m.role x h)

theorem cleanHistory_length (l : List GMsg) : (cleanHistory l).length ≤ l.length := by
  cases l with
  | nil => simp [cleanHistory]
  | cons m ms =>
    simp only [cleanHistory, List.length_cons]
    exact Nat.succ_le_succ (cleanAux_length ms m.role)

theorem keepTurn_content {t : Turn} (h : keepTurn t = true) : t.content = some (t.content.getD "") := by
  cases hc : t.content with
  | none => rw [keepTurn, hc] at h; exact absurd h (by simp)
  | some s => simp

theorem mem_fmtGemini {gm : GMsg} {hist : List Turn} (h : gm ∈ fmtGeminiHistory hist) :
    ∃ t ∈ hist, keepTurn t = true ∧
      gm = ⟨if t.type = "user" then "user" else "model", t.content.getD ""⟩ := by
  simp only [fmtGeminiHistory, List.mem_map, List.mem_filter] at h
  obtain ⟨t, ⟨ht, hk⟩, he⟩ := h
  exact ⟨t, ht, hk, he.symm⟩

/-- C5 (amended): the *Gemini* adapter's normalized history
(`cleanHistory` in `callGeminiWithTools`) never contains two adjacent turns
with the same role, for every conversation history.  (The Ollama adapter
gives no such guarantee; see the counterexample.) -/
theorem gemini_no_adjacent_roles (msg : String) (hist : List Turn) :
    List.Chain' (fun x y : GMsg => x.role ≠ y.role) (geminiHistory msg hist) := by
  unfold geminiHistory
  cases h : ensureUserFirst msg (fmtGeminiHistory hist) with
  | nil => simp [cleanHistory]
  | cons m ms =>
    simp only [cleanHistory]
    rw [List.chain'_cons']
    exact ⟨fun y hy => Ne.symm ((cleanAux_spec ms m.role).2 y hy), (cleanAux_spec ms m.role).1⟩

/-- C5 counterexample: the Ollama adapter (`callOllama`) performs no
same-role collapsing — a history of two consecutive user turns is forwarded
to the provider with two adjacent `user` messages, so the claim, stated over
every adapter, fails. -/
theorem ollama_adjacent_same_roles :
    ¬ List.Chain' (fun x y : OMsg => x.role ≠ y.role)
        (ollamaMessages "hi" [⟨"user", some "a"⟩, ⟨"user", some "b"⟩] none) := by
  intro h
  have he : ollamaMessages "hi" [⟨"user", some "a"⟩, ⟨"user", some "b"⟩] none =
      [⟨"user", "a"⟩, ⟨"user", "b"⟩, ⟨"user", "hi"⟩] := rfl
  rw [he] at h
  rcases List.chain'_cons.mp h with ⟨hne, -⟩
  exact hne rfl

/-- C4 (amended): in the *Gemini* adapter, whenever the trimmed/formatted
history is empty or its first turn is not user-authored, the history handed
to the provider is the single synthetic turn `[{role:"user", text:
userMessage}]`.  (The Ollama adapter performs no such substitution; see the
counterexample.) -/
theorem gemini_first_user_subst (msg : String) (hist : List Turn)
    (h : (fmtGeminiHistory hist).head?.map GMsg.role ≠ some "user") :
    geminiHistory msg hist = [⟨"user", msg⟩] := by
  unfold geminiHistory ensureUserFirst
  cases hf : fmtGeminiHistory hist with
  | nil => simp [cleanHistory, cleanAux]
  | cons m ms =>
    rw [hf] at h
    simp only [List.head?_cons, Option.map_some'] at h
    have hm : ¬ m.role = "user" := fun he => h (by rw [he])
    simp [hm, cleanHistory, cleanAux]

theorem gemini_first_user_subst_witness :
    (fmtGeminiHistory [⟨"assistant", some "hi"⟩]).head?.map GMsg.role ≠ some "user" ∧
    geminiHistory "hello" [⟨"assistant", some "hi"⟩] = [⟨"user", "hello"⟩] :=
  ⟨by decide, gemini_first_user_subst "hello" [⟨"assistant", some "hi"⟩] (by decide)⟩

/-- C4 counterexample: for a nonblank history whose first (and only) turn is
assistant-authored, the Ollama adapter does *not* discard the history and
synthesize a single user turn — it forwards the assistant turn followed by
the current message, so the claim, stated over every request/adapter, fails. -/
theorem ollama_no_first_user_subst :
    ollamaMessages "hello" [⟨"assistant", some "hi"⟩] none ≠ [⟨"user", "hello"⟩] ∧
    ollamaMessages "hello" [⟨"assistant", some "hi"⟩] none =
      [⟨"assistant", "hi"⟩, ⟨"user", "hello"⟩] :=
  ⟨by decide, rfl⟩

theorem filter_keep_idem : ∀ hist : List Turn,
    (hist.filter keepTurn).filter keepTurn = hist.filter keepTurn := by
  intro hist
  induction hist with
  | nil => rfl
  | cons t ts ih =>
    cases h : keepTurn t <;> simp [List.filter_cons, h, ih]

/-- C10: in both adapter variants, turns with missing/empty/whitespace-only
content are dropped before normalization (filtering again changes nothing),
and a history all of whose turns are blank behaves exactly like an empty
history: the Gemini adapter synthesizes the single user turn, the Ollama
adapter forwards only the optional system prompt and the current message. -/
theorem blank_turns_dropped (msg : String) (hist : List Turn) (sys : Option String) :
    geminiHistory msg (hist.filter keepTurn) = geminiHistory msg hist ∧
    ollamaMessages msg (hist.filter keepTurn) sys = ollamaMessages msg hist sys ∧
    ((∀ t ∈ hist, keepTurn t = false) →
      geminiHistory msg hist = [⟨"user", msg⟩] ∧
      ollamaMessages msg hist sys =
        (match sys with
         | some s => [⟨"system", s⟩]
         | none => []) ++ [⟨"user", msg⟩]) := by
  refine ⟨?_, ?_, ?_⟩
  · unfold geminiHistory fmtGeminiHistory
    rw [filter_keep_idem]
  · unfold ollamaMessages
    rw [filter_keep_idem]
  · intro hall
    have hf : hist.filter keepTurn = [] := by
      rw [List.filter_eq_nil_iff]
      intro t ht
      simp [hall t ht]
    constructor
    · unfold geminiHistory fmtGeminiHistory ensureUserFirst
      rw [hf]
      simp [cleanHistory, cleanAux]
    · unfold ollamaMessages
      rw [hf]
      simp

theorem blank_turns_dropped_witness :
    geminiHistory "m" [⟨"user", some " "⟩] = [⟨"user", "m"⟩] ∧
    ollamaMessages "m" [⟨"user", some " "⟩] none = [⟨"user", "m"⟩] := by
  have h := (blank_turns_dropped "m" [⟨"user", some " "⟩] none).2.2 (by decide)
  exact ⟨h.1, by rw [h.2]; rfl⟩

/-- C6: for a client message list longer than 10 turns, the
`conversation_history` the client sends (`messages.slice(-10)`) is exactly
the last 10 turns; consequently the history the adapter builds from it has at
most 10 entries and every entry either is the synthetic current-message turn
or originates (content and role) from one of those last 10 turns — the model
never sees older turns. -/
theorem client_history_window (msg : String) (ms : List Turn) (h : 10 < ms.length) :
    (clientRecentHistory ms).length = 10 ∧
    (geminiHistory msg (clientRecentHistory ms)).length ≤ 10 ∧
    ∀ gm ∈ geminiHistory msg (clientRecentHistory ms),
      gm = ⟨"user", msg⟩ ∨
      ∃ t ∈ ms.drop (ms.length - 10), t.content = some gm.text ∧
        gm.role = (if t.type = "user" then "user" else "model") := by
  have hlen : (clientRecentHistory ms).length = 10 := by
    simp only [clientRecentHistory, List.length_drop]
    omega
  refine ⟨hlen, ?_, ?_⟩
  · have hfmt : (fmtGeminiHistory (clientRecentHistory ms)).length ≤ 10 := by
      simp only [fmtGeminiHistory, List.length_map]
      calc ((clientRecentHistory ms).filter keepTurn).length
          ≤ (clientRecentHistory ms).length := List.length_filter_le _ _
        _ = 10 := hlen
    have hens : (ensureUserFirst msg (fmtGeminiHistory (clientRecentHistory ms))).length ≤ 10 := by
      cases hf : fmtGeminiHistory (clientRecentHistory ms) with
      | nil => simp [ensureUserFirst]
      | cons m rest =>
        by_cases hr : m.role = "user"
        · simp only [ensureUserFirst, if_pos hr]
          rw [← hf]; exact hfmt
        · simp [ensureUserFirst, hr]
    exact le_trans (cleanHistory_length _) hens
  · intro gm hgm
    have h1 := mem_cleanHistory hgm
    cases hf : fmtGeminiHistory (clientRecentHistory ms) with
    | nil =>
      rw [hf] at h1
      simp only [ensureUserFirst, List.mem_singleton] at h1
      exact Or.inl h1
    | cons m rest =>
      rw [hf] at h1
      by_cases hr : m.role = "user"
      · simp only [ensureUserFirst, if_pos hr] at h1
        rw [← hf] at h1
        obtain ⟨t, ht, hk, he⟩ := mem_fmtGemini h1
        refine Or.inr ⟨t, ht, ?_, ?_⟩
        · rw [keepTurn_content hk]
          rw [he]
        · rw [he]
      · simp only [ensureUserFirst, if_neg hr, List.mem_singleton] at h1
        exact Or.inl h1

theorem client_history_window_witness :
    (clientRecentHistory (List.replicate 11 (Turn.mk "user" (some "x")))).length = 10 ∧
    (geminiHistory "m" (clientRecentHistory (List.replicate 11 (Turn.mk "user" (some "x"))))).length ≤ 10 := by
  have h := client_history_window "m" (List.replicate 11 (Turn.mk "user" (some "x"))) (by simp)
  exact ⟨h.1, h.2.1⟩

/-! ### Claims about the tool executor and the orchestrator -/

/-- C7: `executeTool` performs at most one outbound call; for each of the
three registered tool names it performs exactly the one corresponding
collaborator call and returns that collaborator's parsed response unmodified
(whatever reply — or failure — the collaborator produces is the executor's
result, with no transformation, caching or validation); for every other name
it fails with an error naming the tool and performs no outbound call. -/
theorem executeTool_contract (env : ToolEnv) (toolName : String) (args : Json) :
    (executeTool env toolName args).snd.length ≤ 1 ∧
    (toolName = "getWeatherData" →
      executeTool env toolName args =
        (env.weather (jGet args "city"), [OutCall.weatherLookup (jGet args "city")])) ∧
    (toolName = "getLoctionWiseUserData" →
      executeTool env toolName args =
        (env.usersByCity (jGet args "city"), [OutCall.usersLookup (jGet args "city")])) ∧
    (toolName = "deleteUserlData" →
      executeTool env toolName args =
        (env.deleteUser (jGet args "email") (jGet args "token"),
         [OutCall.userDelete (jGet args "email") (jGet args "token")])) ∧
    (toolName ≠ "getWeatherData" → toolName ≠ "getLoctionWiseUserData" →
      toolName ≠ "deleteUserlData" →
      executeTool env toolName args = (Except.error ("Unknown tool: " ++ toolName), [])) := by
  unfold executeTool
  by_cases h1 : toolName = "getWeatherData"
  · simp [h1]
  · by_cases h2 : toolName = "getLoctionWiseUserData"
    · simp [h1, h2]
    · by_cases h3 : toolName = "deleteUserlData"
      · simp [h1, h2, h3]
      · simp [h1, h2, h3]

def wEnv : ToolEnv where
  weather := fun _ => .ok (Json.obj [("temp", Json.str "37c")])
  usersByCity := fun _ => .ok (Json.arr [])
  deleteUser := fun _ _ => .error "boom"

theorem executeTool_contract_witness :
    executeTool wEnv "getWeatherData" (Json.obj [("city", Json.str "Kolkata")]) =
      (wEnv.weather (jGet (Json.obj [("city", Json.str "Kolkata")]) "city"),
       [OutCall.weatherLookup (jGet (Json.obj [("city", Json.str "Kolkata")]) "city")]) ∧
    executeTool wEnv "noSuchTool" (Json.obj []) =
      (Except.error ("Unknown tool: " ++ "noSuchTool"), []) :=
  ⟨(executeTool_contract wEnv "getWeatherData" (Json.obj [("city", Json.str "Kolkata")])).2.1 rfl,
   (executeTool_contract wEnv "noSuchTool" (Json.obj [])).2.2.2.2
     (by decide) (by decide) (by decide)⟩

theorem toolLoopFrames_append (env : ChatEnv) (l1 l2 : List ToolCall) :
    toolLoopFrames env (l1 ++ l2) = toolLoopFrames env l1 ++ toolLoopFrames env l2 := by
  induction l1 with
  | nil => rfl
  | cons fc rest ih => simp [toolLoopFrames, ih, List.append_assoc]

theorem perCallFrames_not_terminal (env : ChatEnv) (fc : ToolCall) :
    ∀ f ∈ perCallFrames env fc, isTerminal f = false := by
  intro f hf
  unfold perCallFrames at hf
  cases hex : (executeTool env.tools fc.name fc.args).fst with
  | error msg =>
    rw [hex] at hf
    simp only [List.mem_cons, List.not_mem_nil, or_false] at hf
    rcases hf with rfl | rfl | rfl <;> rfl
  | ok r =>
    rw [hex] at hf
    dsimp only at hf
    cases hfu : env.followUp (followUpPrompt fc.name r) with
    | error msg =>
      rw [hfu] at hf
      simp only [List.mem_cons, List.not_mem_nil, or_false] at hf
      rcases hf with rfl | rfl | rfl | rfl <;> rfl
    | ok t =>
      rw [hfu] at hf
      simp only [List.mem_cons, List.not_mem_nil, or_false] at hf
      rcases hf with rfl | rfl | rfl <;> rfl

theorem toolLoopFrames_not_terminal (env : ChatEnv) :
    ∀ (calls : List ToolCall) (f : Frame), f ∈ toolLoopFrames env calls → isTerminal f = false := by
  intro calls
  induction calls with
  | nil => intro f hf; simp [toolLoopFrames] at hf
  | cons fc rest ih =>
    intro f hf
    simp only [toolLoopFrames, List.mem_append] at hf
    rcases hf with h | h
    · exact perCallFrames_not_terminal env fc f h
    · exact ih f h

theorem executing_mem_toolLoop (env : ChatEnv) :
    ∀ (calls : List ToolCall) (fc : ToolCall), fc ∈ calls →
      Frame.fnExecuting fc.name fc.args ∈ toolLoopFrames env calls := by
  intro calls
  induction calls with
  | nil => intro fc h; simp at h
  | cons c rest ih =>
    intro fc h
    simp only [List.mem_cons] at h
    simp only [toolLoopFrames, List.mem_append]
    rcases h with h | h
    · subst h
      exact Or.inl (by simp [perCallFrames])
    · exact Or.inr (ih fc h)

/-- C8: for every request (every provider/tool behaviour), the emitted frame
sequence is a finite list whose last frame is `complete` (successful
orchestration) or `error` (the adapter round threw), the stream is closed
right after it, and no `complete`/`error` frame occurs anywhere earlier. -/
theorem chat_frames_terminal (env : ChatEnv) (msg : String) (hist : List Turn) :
    ∃ t, (chatFrames env msg hist).getLast? = some t ∧ isTerminal t = true ∧
      ∀ f ∈ (chatFrames env msg hist).dropLast, isTerminal f = false := by
  unfold chatFrames
  cases hm : env.model msg (geminiHistory msg hist) with
  | error m =>
    refine ⟨Frame.errorF ("Gemini API Error: " ++ m), rfl, rfl, ?_⟩
    intro f hf
    simp at hf
    subst hf
    rfl
  | ok resp =>
    have he : Frame.thinking "Processing..." ::
        ((if 0 < resp.functionCalls.length then toolLoopFrames env resp.functionCalls
          else [Frame.contentF resp.text]) ++ [Frame.complete]) =
        (Frame.thinking "Processing..." ::
         (if 0 < resp.functionCalls.length then toolLoopFrames env resp.functionCalls
          else [Frame.contentF resp.text])) ++ [Frame.complete] := by
      simp
    refine ⟨Frame.complete, ?_, rfl, ?_⟩
    · rw [he, List.getLast?_concat]
    · intro f hf
      rw [he, List.dropLast_concat] at hf
      simp only [List.mem_cons] at hf
      rcases hf with rfl | h
      · rfl
      · by_cases hl : 0 < resp.functionCalls.length
        · rw [if_pos hl] at h
          exact toolLoopFrames_not_terminal env _ f h
        · rw [if_neg hl] at h
          simp only [List.mem_singleton] at h
          subst h
          rfl

def kolkataArgs : Json := Json.obj [("city", Json.str "Kolkata")]

def kolkataTemp : Json := Json.obj [("temp", Json.str "37c")]

/-- C1: when the model round returns exactly the single tool call
`getWeatherData({city:"Kolkata"})` and the weather collaborator replies
`{temp:"37c"}` and the follow-up model round succeeds, the stream is exactly
`thinking`, `function_call` executing, `function_call` completed carrying the
`{temp:"37c"}` result, `content` with the follow-up text, `complete` — in
that order, and nothing else. -/
theorem chat_frames_scenarioA (env : ChatEnv) (msg txt followText : String) (hist : List Turn)
    (hm : env.model msg (geminiHistory msg hist) =
      .ok ⟨[ToolCall.mk "getWeatherData" kolkataArgs], txt⟩)
    (hw : env.tools.weather (some (Json.str "Kolkata")) = .ok kolkataTemp)
    (hf : env.followUp (followUpPrompt "getWeatherData" kolkataTemp) = .ok followText) :
    chatFrames env msg hist =
      [Frame.thinking "Processing...",
       Frame.fnExecuting "getWeatherData" kolkataArgs,
       Frame.fnCompleted "getWeatherData" kolkataArgs kolkataTemp,
       Frame.contentF followText,
       Frame.complete] := by
  have hx : (executeTool env.tools "getWeatherData" kolkataArgs).fst = Except.ok kolkataTemp := by
    have hred : executeTool env.tools "getWeatherData" kolkataArgs =
        (env.tools.weather (some (Json.str "Kolkata")),
         [OutCall.weatherLookup (some (Json.str "Kolkata"))]) := rfl
    rw [hred]
    exact hw
  unfold chatFrames
  rw [hm]
  simp [toolLoopFrames, perCallFrames, hx, hf]

def envA : ChatEnv where
  model := fun _ _ => .ok ⟨[ToolCall.mk "getWeatherData" kolkataArgs], ""⟩
  tools :=
    { weather := fun _ => .ok kolkataTemp
      usersByCity := fun _ => .ok (Json.arr [])
      deleteUser := fun _ _ => .ok Json.null }
  followUp := fun _ => .ok "It is 37c in Kolkata."

theorem chat_frames_scenarioA_witness :
    chatFrames envA "weather in Kolkata?" [] =
      [Frame.thinking "Processing...",
       Frame.fnExecuting "getWeatherData" kolkataArgs,
       Frame.fnCompleted "getWeatherData" kolkataArgs kolkataTemp,
       Frame.contentF "It is 37c in Kolkata.",
       Frame.complete] :=
  chat_frames_scenarioA envA "weather in Kolkata?" "" "It is 37c in Kolkata." [] rfl rfl rfl

/-- C2: when one queued tool call fails, the stream shows — at that call's
position — its `executing` frame, a `function_call` frame with status error
carrying the error message, and a `content` frame whose text names the
failing tool ("Error during <name>: <message>"); the loop then continues with
the tool calls queued after it, in the model's order, none skipped (in
particular every later call still gets its `executing` frame). -/
theorem chat_frames_tool_error (env : ChatEnv) (msg txt emsg : String) (hist : List Turn)
    (pre post : List ToolCall) (fc : ToolCall)
    (hm : env.model msg (geminiHistory msg hist) = .ok ⟨pre ++ fc :: post, txt⟩)
    (hx : (executeTool env.tools fc.name fc.args).fst = .error emsg) :
    chatFrames env msg hist =
      Frame.thinking "Processing..." ::
      ((toolLoopFrames env pre ++
        Frame.fnExecuting fc.name fc.args ::
        Frame.fnError fc.name emsg ::
        Frame.contentF ("Error during " ++ fc.name ++ ": " ++ emsg) ::
        toolLoopFrames env post) ++ [Frame.complete]) ∧
    ∀ fc' ∈ post, Frame.fnExecuting fc'.name fc'.args ∈ chatFrames env msg hist := by
  have hperm : perCallFrames env fc =
      [Frame.fnExecuting fc.name fc.args, Frame.fnError fc.name emsg,
       Frame.contentF ("Error during " ++ fc.name ++ ": " ++ emsg)] := by
    unfold perCallFrames
    rw [hx]
  have hpos : 0 < (pre ++ fc :: post).length := by simp
  have hmain : chatFrames env msg hist =
      Frame.thinking "Processing..." ::
      ((toolLoopFrames env pre ++
        Frame.fnExecuting fc.name fc.args ::
        Frame.fnError fc.name emsg ::
        Frame.contentF ("Error during " ++ fc.name ++ ": " ++ emsg) ::
        toolLoopFrames env post) ++ [Frame.complete]) := by
    unfold chatFrames
    rw [hm]
    dsimp only
    rw [if_pos hpos, toolLoopFrames_append env pre (fc :: post)]
    simp [toolLoopFrames, hperm]
  refine ⟨hmain, ?_⟩
  intro fc' hpost
  rw [hmain]
  have hmem : Frame.fnExecuting fc'.name fc'.args ∈ toolLoopFrames env post :=
    executing_mem_toolLoop env post fc' hpost
  simp only [List.mem_cons, List.mem_append]
  tauto

def envB : ChatEnv where
  model := fun _ _ => .ok ⟨[ToolCall.mk "deleteUserlData" (Json.obj []),
                            ToolCall.mk "getWeatherData" kolkataArgs], ""⟩
  tools :=
    { weather := fun _ => .ok kolkataTemp
      usersByCity := fun _ => .ok (Json.arr [])
      deleteUser := fun _ _ => .error "boom" }
  followUp := fun _ => .ok "done"

theorem chat_frames_tool_error_witness :
    chatFrames envB "m" [] =
      Frame.thinking "Processing..." ::
      ((toolLoopFrames envB [] ++
        Frame.fnExecuting "deleteUserlData" (Json.obj []) ::
        Frame.fnError "deleteUserlData" "boom" ::
        Frame.contentF ("Error during " ++ "deleteUserlData" ++ ": " ++ "boom") ::
        toolLoopFrames envB [ToolCall.mk "getWeatherData" kolkataArgs]) ++ [Frame.complete]) ∧
    Frame.fnExecuting "getWeatherData" kolkataArgs ∈ chatFrames envB "m" [] := by
  have h := chat_frames_tool_error envB "m" "" "boom" [] []
      [ToolCall.mk "getWeatherData" kolkataArgs] (ToolCall.mk "deleteUserlData" (Json.obj []))
      rfl rfl
  exact ⟨h.1, h.2 (ToolCall.mk "getWeatherData" kolkataArgs) (by simp)⟩

/-- C9: every `/deleteUser` request whose `token` query parameter is not the
shared secret `"1"` gets the `{message:"error"}` response and leaves the user
store untouched (no deletion is attempted); the store can change only when
the token equals the secret, in which case the first record whose email
matches the lowercased `email` parameter is removed (`deleteOne`). -/
theorem deleteUser_auth (store : List UserRec) (email token : Option String) :
    (token ≠ some "1" → deleteUserRoute store email token = (store, DeleteResp.errorMsg)) ∧
    ((deleteUserRoute store email token).fst ≠ store → token = some "1") ∧
    (∀ e, token = some "1" → email = some e →
      deleteUserRoute store email token =
        (store.eraseP (fun r => r.email == some (jsToLower e)),
         DeleteResp.deleted (if store.any (fun r => r.email == some (jsToLower e)) then 1 else 0))) := by
  by_cases ht : token = some "1"
  · refine ⟨fun h => absurd ht h, fun _ => ht, ?_⟩
    intro e _ he
    subst he
    simp [deleteUserRoute, ht]
  · refine ⟨fun _ => by simp [deleteUserRoute, ht], ?_, fun e h _ => absurd h ht⟩
    intro hne
    exfalso
    apply hne
    simp [deleteUserRoute, ht]

def storeC : List UserRec := [⟨none, none, some "a@b.com", none, none⟩]

theorem deleteUser_auth_witness :
    deleteUserRoute storeC (some "A@B.com") (some "2") = (storeC, DeleteResp.errorMsg) ∧
    ((some "1" : Option String) = some "1") ∧
    deleteUserRoute storeC (some "A@B.com") (some "1") =
      (storeC.eraseP (fun r => r.email == some (jsToLower "A@B.com")),
       DeleteResp.deleted
         (if storeC.any (fun r => r.email == some (jsToLower "A@B.com")) then 1 else 0)) := by
  refine ⟨?_, ?_, ?_⟩
  · exact (deleteUser_auth storeC (some "A@B.com") (some "2")).1 (by decide)
  · exact (deleteUser_auth storeC (some "A@B.com") (some "1")).2.1 (by decide)
  · exact (deleteUser_auth storeC (some "A@B.com") (some "1")).2.2 "A@B.com" rfl rfl
